import Mathlib

/-!
Verification of the FTOS NAPALM driver parsing pipeline (src/napalm_ftos/ftos.py).

Python strings are modelled through their character lists; Python `int()` and
`float()` are modelled by `pyInt` and `pyFloat` (floats as exact rationals,
adequate for the decimal literals that occur in device output); a raised
Python exception is modelled by `none` in an `Option` result.  External
collaborators that validate IP addresses (napalm `ip`) are taken as an
arbitrary function `ipF : String -> Option String` (`none` = ValidationError).
Python dicts are modelled by association lists with Python update semantics
(`dictSet` replaces in place, appends fresh keys at the end).
-/

namespace NapalmFtos

/-- Whitespace test used for Python `strip`, `\s` and `split()`. -/
def isWS (c : Char) : Bool := c.isWhitespace

/-- Python `\w` (ASCII word character, as in Python 2 default mode). -/
def wordChar (c : Char) : Bool := c.isAlphanum || c = '_'

/-- Left-to-right test that `p` is a leading piece of `l`. -/
def startsWithL : List Char → List Char → Bool
  | [], _ => true
  | _ :: _, [] => false
  | p :: ps, c :: cs => p == c && startsWithL ps cs

/-- Substring containment, as Python `in` / `re.search` of a literal. -/
def containsL (pat : List Char) : List Char → Bool
  | [] => startsWithL pat []
  | c :: cs => startsWithL pat (c :: cs) || containsL pat cs

/-- Python `str.strip()`: drop whitespace from both ends. -/
def trimL (l : List Char) : List Char :=
  ((l.dropWhile isWS).reverse.dropWhile isWS).reverse

/-- Value of a decimal digit list, most significant first. -/
def natOfDigits (l : List Char) : Nat :=
  l.foldl (fun a c => a * 10 + (c.toNat - 48)) 0

/-- Core of Python `int()`: optional sign then one or more digits, nothing else. -/
def pyIntCore : List Char → Option Int
  | [] => none
  | c :: r =>
    if c = '-' then
      if r ≠ [] ∧ r.all Char.isDigit then some (-(natOfDigits r : Int)) else none
    else if c = '+' then
      if r ≠ [] ∧ r.all Char.isDigit then some (natOfDigits r : Int) else none
    else if (c :: r).all Char.isDigit then some (natOfDigits (c :: r) : Int) else none

/-- Python `int(s)` on text: strips surrounding whitespace, base 10, `none` = ValueError. -/
def pyInt (s : String) : Option Int :=
  pyIntCore (trimL s.data)

/-- Sign-stripped part of `pyFloat`: numerator and denominator of the exact
decimal value. -/
def pyFloatMag (l : List Char) : Option (Nat × Nat) :=
  let p := l.span Char.isDigit
  match p.2 with
  | [] => if p.1 = [] then none else some (natOfDigits p.1, 1)
  | '.' :: r₂ =>
    let q := r₂.span Char.isDigit
    if q.2 = [] ∧ (p.1 ≠ [] ∨ q.1 ≠ []) then
      some (natOfDigits p.1 * 10 ^ q.1.length + natOfDigits q.1, 10 ^ q.1.length)
    else none
  | _ => none

/-- Sign dispatch of `pyFloat`. -/
def pyFloatCore : List Char → Option Rat
  | '-' :: r => (pyFloatMag r).map (fun nd => mkRat (-(nd.1 : Int)) nd.2)
  | '+' :: r => (pyFloatMag r).map (fun nd => mkRat (nd.1 : Int) nd.2)
  | l => (pyFloatMag l).map (fun nd => mkRat (nd.1 : Int) nd.2)

/-- Python `float(s)` on the decimal literals occurring in device output:
optional sign, digits with at most one dot (at least one digit overall),
modelled as an exact rational; `none` = ValueError. -/
def pyFloat (s : String) : Option Rat :=
  pyFloatCore (trimL s.data)

/-- Python dict lookup on an association list. -/
def dictGet {α β : Type} [DecidableEq α] (k : α) : List (α × β) → Option β
  | [] => none
  | (k', v) :: r => if k' = k then some v else dictGet k r

/-- Python dict assignment: replace in place, append fresh keys at the end. -/
def dictSet {α β : Type} [DecidableEq α] (k : α) (v : β) : List (α × β) → List (α × β)
  | [] => [(k, v)]
  | (k', v') :: r => if k' = k then (k, v) :: r else (k', v') :: dictSet k v r

/-! ## Duration parser (`FTOSDriver._parse_uptime`) -/

/-- Seconds per minute (source constant `MINUTE_SECONDS`). -/
def MINUTE_SECONDS : Int := 60
/-- Seconds per hour (source constant `HOUR_SECONDS`). -/
def HOUR_SECONDS : Int := 60 * MINUTE_SECONDS
/-- Seconds per day (source constant `DAY_SECONDS`). -/
def DAY_SECONDS : Int := 24 * HOUR_SECONDS
/-- Seconds per week (source constant `WEEK_SECONDS`). -/
def WEEK_SECONDS : Int := 7 * DAY_SECONDS
/-- Seconds per 365-day year (source constant `YEAR_SECONDS`). -/
def YEAR_SECONDS : Int := 365 * DAY_SECONDS

/-- One backtracking step of the short-form segment regex
`(\d+w)?(\d+d)?(\d+h)?(\d+m)?`: an optional group `(\d+c)?` at the current
position consumes a maximal nonempty digit run followed by the tag letter `c`,
or nothing.  Returns the captured group (digits and tag) and the rest. -/
def tryTag (c : Char) (l : List Char) : Option (List Char) × List Char :=
  let p := l.span Char.isDigit
  match p.2 with
  | d :: r => if d = c ∧ p.1 ≠ [] then (some (p.1 ++ [c]), r) else (none, l)
  | [] => (none, l)

/-- Anchored match of `^(\d+):(\d+):(\d+)$` returning the three digit groups. -/
def colonMatch (l : List Char) : Option (Nat × Nat × Nat) :=
  let p := l.span Char.isDigit
  match p.2 with
  | ':' :: r₁ =>
    let q := r₁.span Char.isDigit
    match q.2 with
    | ':' :: r₂ =>
      let w := r₂.span Char.isDigit
      if p.1 ≠ [] ∧ q.1 ≠ [] ∧ w.1 ≠ [] ∧ w.2 = [] then
        some (natOfDigits p.1, natOfDigits q.1, natOfDigits w.1)
      else none
    | _ => none
  | _ => none

/-- Accumulator of `_parse_uptime`: the six time components. -/
structure Uptime where
  years : Int
  weeks : Int
  days : Int
  hours : Int
  minutes : Int
  seconds : Int
deriving DecidableEq

/-- The dispatch loop over the short-form groups, exactly as the source loops
over `match.groups()` testing `endswith` for y/w/d/h/m (the `y` test is in the
source even though the regex has no `y` group). -/
def shortGroupStep (u : Uptime) : Option (List Char) → Uptime
  | none => u
  | some m =>
    if startsWithL ['y'] m.reverse then { u with years := (natOfDigits (m.dropLast) : Int) }
    else if startsWithL ['w'] m.reverse then { u with weeks := (natOfDigits (m.dropLast) : Int) }
    else if startsWithL ['d'] m.reverse then { u with days := (natOfDigits (m.dropLast) : Int) }
    else if startsWithL ['h'] m.reverse then { u with hours := (natOfDigits (m.dropLast) : Int) }
    else if startsWithL ['m'] m.reverse then { u with minutes := (natOfDigits (m.dropLast) : Int) }
    else u

/-- Long-form element dispatch: the `elif` chain of substring/regex tests
(`year`, `w(ee)?k`, `day`, `h(ou)?r`, `min(ute)?`) followed by
`int(element.split()[0])`; `none` models the uncaught IndexError/ValueError. -/
def longElementStep (u : Uptime) (e : List Char) : Option Uptime :=
  let tok : Option Int := match (e.splitOnP isWS).filter (· ≠ []) with
    | [] => none
    | t :: _ => pyIntCore t
  if containsL ['y','e','a','r'] e then
    (tok.map fun n => { u with years := n })
  else if containsL ['w','k'] e || containsL ['w','e','e','k'] e then
    (tok.map fun n => { u with weeks := n })
  else if containsL ['d','a','y'] e then
    (tok.map fun n => { u with days := n })
  else if containsL ['h','r'] e || containsL ['h','o','u','r'] e then
    (tok.map fun n => { u with hours := n })
  else if containsL ['m','i','n'] e then
    (tok.map fun n => { u with minutes := n })
  else some u

/-- Split on an exact separator string, Python `str.split(sep)` semantics
(keeps empty pieces; `sep` nonempty).  Fuel-indexed, structural on fuel. -/
def splitOnAux (sep : List Char) : Nat → List Char → List Char → List (List Char)
  | 0, l, acc => [acc.reverse ++ l]
  | _ + 1, [], acc => [acc.reverse]
  | fuel + 1, c :: cs, acc =>
    if startsWithL sep (c :: cs) then
      acc.reverse :: splitOnAux sep fuel ((c :: cs).drop sep.length) []
    else
      splitOnAux sep fuel cs (c :: acc)

/-- Split on an exact nonempty separator, Python `str.split(sep)`. -/
def splitOnL (sep l : List Char) : List (List Char) :=
  splitOnAux sep l.length l []

/-- `FTOSDriver._parse_uptime(uptime_str, short)` translated from the source.
`none` models a raised exception (only possible on the long path). -/
def pyParseUptime (s : String) (short : Bool) : Option Int :=
  let t := trimL s.data
  let u₀ : Uptime := ⟨0, 0, 0, 0, 0, 0⟩
  let res : Option Uptime :=
    if short then
      match colonMatch t with
      | some (h, m, sec) =>
        some { u₀ with hours := (h : Int), minutes := (m : Int), seconds := (sec : Int) }
      | none =>
        -- `re.search` of `(\d+w)?(\d+d)?(\d+h)?(\d+m)?` always yields the
        -- (possibly empty) match at position 0.
        let (gw, r₁) := tryTag 'w' t
        let (gd, r₂) := tryTag 'd' r₁
        let (gh, r₃) := tryTag 'h' r₂
        let (gm, _) := tryTag 'm' r₃
        some ([gw, gd, gh, gm].foldl shortGroupStep u₀)
    else
      (splitOnL [',', ' '] t).foldlM longElementStep u₀
  res.map fun u =>
    u.years * YEAR_SECONDS + u.weeks * WEEK_SECONDS + u.days * DAY_SECONDS +
      u.hours * HOUR_SECONDS + u.minutes * MINUTE_SECONDS + u.seconds

/-! ## Interface name canonicalization (`_canonical_interface_name`) -/

/-- Modelled from the spec: the external abbreviation table behind
`napalm.base.helpers.canonical_interface_name` (spec section 4.2: expansion
via an abbreviation table such as Gi to GigabitEthernet); the table maps
short interface type names to full, purely alphabetic ones, and full names
are not themselves keys. -/
def ifaceAbbrevTable : List (String × String) :=
  [("Gi", "GigabitEthernet"), ("Te", "TenGigabitEthernet"),
   ("Fa", "FastEthernet"), ("Fo", "FortyGigE"), ("Hu", "HundredGigE"),
   ("Vl", "Vlan")]

/-- Modelled from the spec: `canonical_interface_name` (napalm.base.helpers,
not part of this repository): split the name into its maximal leading
alphabetic run and the remainder, expand the run through the abbreviation
table, otherwise return the name unchanged. -/
def canonical_interface_name (s : String) : String :=
  match dictGet (String.mk (s.data.takeWhile Char.isAlpha)) ifaceAbbrevTable with
  | some full => String.mk (full.data ++ s.data.dropWhile Char.isAlpha)
  | none => s

/-- Slot/port part of the TenGigabitEthernet regex: an anchored match of
`\d+\/\d+` returning the matched characters. -/
def tenGigNumMatch (r : List Char) : Option (List Char) :=
  match r.dropWhile Char.isDigit with
  | c :: r₂ =>
    if c = '/' ∧ r.takeWhile Char.isDigit ≠ [] ∧ r₂.takeWhile Char.isDigit ≠ [] ∧
        r₂.dropWhile Char.isDigit = [] then
      some (r.takeWhile Char.isDigit ++ '/' :: r₂.takeWhile Char.isDigit)
    else none
  | [] => none

/-- Anchored match of `^(TenGigabitEthernet)(\d+\/\d+)$`, returning the
slot/port group. -/
def tenGigMatch (s : String) : Option (List Char) :=
  if startsWithL "TenGigabitEthernet".data s.data then
    tenGigNumMatch (s.data.drop 18)
  else none

/-- `_canonical_interface_name` from the source: expand through the helper
then insert one space in spaceless TenGigabitEthernet names. -/
def ftosCanonicalIfaceName (s : String) : String :=
  match tenGigMatch (canonical_interface_name s) with
  | some nums => String.mk ("TenGigabitEthernet ".data ++ nums)
  | none => canonical_interface_name s

/-! ## Interface speed parsing (`get_interfaces`, lines 456-463) -/

/-- Python string repetition `s * n`. -/
def pyStrMul (l : List Char) (n : Nat) : List Char :=
  (List.replicate n l).flatten

/-- The `line_speed` handling of `get_interfaces`: starting from the default
speed 0, when the field ends in `bit` it is split on single spaces; a `Mbit`
unit stores `int(speed[0])` and a `Gbit` unit stores `int(speed[0]*1000)` --
in Python `speed[0]` is a string, so `speed[0]*1000` repeats its digits 1000
times.  `none` models the uncaught IndexError/ValueError. -/
def ifaceSpeed (line_speed : String) : Option Int :=
  if startsWithL ['t','i','b'] line_speed.data.reverse then
    let parts := splitOnL [' '] line_speed.data
    match parts.get? 1 with
    | none => none
    | some u =>
      let first := parts.headD []
      if u = ['M','b','i','t'] then pyIntCore (trimL first)
      else if u = ['G','b','i','t'] then pyIntCore (trimL (pyStrMul first 1000))
      else some 0
  else some 0

/-! ## Raw extractor records, interface counters, NTP peers -/

/-- A raw record from the external table extractor: every template field maps
to its text; unset fields are empty text (spec section 3), so a record is a
total function from field names to field text. -/
def RawRecord := String → String

/-- The source `key_map` of `get_interfaces_counters`, with the scalar
entries written as identity pairs (a bare key k abbreviates [k, k]). -/
def counterKeyMap : List (String × String) :=
  [("rx_octets", "rx_octets"),
   ("rx_unicast", "rx_unicast_packets"),
   ("rx_mcast", "rx_multicast_packets"),
   ("rx_bcast", "rx_broadcast_packets"),
   ("rx_dcard", "rx_discards"),
   ("tx_octets", "tx_octets"),
   ("tx_unicast", "tx_unicast_packets"),
   ("tx_mcast", "tx_multicast_packets"),
   ("tx_bcast", "tx_broadcast_packets"),
   ("tx_dcard", "tx_discards")]

/-- The canonical key set of one counters record. -/
def counterCanonicalKeys : List String :=
  ["rx_errors", "tx_errors", "rx_octets", "rx_unicast_packets",
   "rx_multicast_packets", "rx_broadcast_packets", "rx_discards",
   "tx_octets", "tx_unicast_packets", "tx_multicast_packets",
   "tx_broadcast_packets", "tx_discards"]

/-- Per-record body of `get_interfaces_counters`: error counters start at 0,
then every mapped raw counter is stored as `int(entry[src])` with ValueError
resolved to 0. -/
def buildCounters (e : RawRecord) : List (String × Int) :=
  counterKeyMap.foldl (fun acc kv => dictSet kv.2 ((pyInt (e kv.1)).getD 0) acc)
    [("rx_errors", 0), ("tx_errors", 0)]

/-- `get_interfaces_counters` over the extracted records: one counters record
per canonical interface name. -/
def pyGetInterfacesCounters (entries : List RawRecord) :
    List (String × List (String × Int)) :=
  entries.foldl
    (fun acc e => dictSet (ftosCanonicalIfaceName (e "iface_name")) (buildCounters e) acc) []

/-- `get_ntp_peers`: each extracted association record contributes its
validated remote address mapped to the empty record; a validation failure
propagates (`none`). -/
def pyGetNtpPeers (ipF : String → Option String) (entries : List RawRecord) :
    Option (List (String × Unit)) :=
  entries.foldlM (fun acc e => (ipF (e "remote")).map (fun a => dictSet a () acc)) []

/-- `get_ntp_servers`: the source returns `self.get_ntp_peers()`. -/
def pyGetNtpServers (ipF : String → Option String) (entries : List RawRecord) :
    Option (List (String × Unit)) :=
  pyGetNtpPeers ipF entries

/-! Dictionary lemmas. -/

/-- Reading the key just written. -/
lemma dictGet_dictSet_self {α β : Type} [DecidableEq α] (k : α) (v : β) :
    ∀ l, dictGet k (dictSet k v l) = some v := by
  intro l
  induction l with
  | nil => simp [dictGet, dictSet]
  | cons kv r ih =>
    obtain ⟨k', v'⟩ := kv
    by_cases he : k' = k
    · subst he
      simp [dictGet, dictSet]
    · rw [dictSet, if_neg he, dictGet, if_neg he]
      exact ih

/-- Writing one key leaves the others unchanged. -/
lemma dictGet_dictSet_ne {α β : Type} [DecidableEq α] {k k' : α} (v : β) (h : k' ≠ k) :
    ∀ l, dictGet k (dictSet k' v l) = dictGet k l := by
  intro l
  induction l with
  | nil => simp [dictGet, dictSet, h]
  | cons kv r ih =>
    obtain ⟨k₀, v₀⟩ := kv
    by_cases he : k₀ = k'
    · subst he
      rw [dictSet, if_pos rfl, dictGet, if_neg h, dictGet, if_neg h]
    · rw [dictSet, if_neg he]
      by_cases hk : k₀ = k
      · rw [dictGet, if_pos hk, dictGet, if_pos hk]
      · rw [dictGet, if_neg hk, dictGet, if_neg hk]
        exact ih

/-- What a successful read after a write can be. -/
lemma dictGet_dictSet_cases {α β : Type} [DecidableEq α] {k k' : α} {v c : β}
    {l : List (α × β)} (h : dictGet k (dictSet k' v l) = some c) :
    (k = k' ∧ c = v) ∨ dictGet k l = some c := by
  by_cases he : k' = k
  · subst he
    rw [dictGet_dictSet_self] at h
    exact Or.inl ⟨rfl, (Option.some.inj h).symm⟩
  · rw [dictGet_dictSet_ne v he] at h
    exact Or.inr h

/-- A write never erases a present key. -/
lemma dictGet_isSome_dictSet {α β : Type} [DecidableEq α] {k : α} (k' : α) (v : β)
    {l : List (α × β)} (h : (dictGet k l).isSome = true) :
    (dictGet k (dictSet k' v l)).isSome = true := by
  by_cases he : k' = k
  · subst he
    rw [dictGet_dictSet_self]
    rfl
  · rw [dictGet_dictSet_ne v he]
    exact h

/-- Every value readable from a dict built by a fold of writes is the written
value of some processed element, unless it was already in the accumulator. -/
lemma foldl_dictSet_values {α β γ : Type} [DecidableEq α] (key : γ → α) (val : γ → β) :
    ∀ (entries : List γ) (acc : List (α × β)) (name : α) (c : β),
      dictGet name (entries.foldl (fun a e => dictSet (key e) (val e) a) acc) = some c →
      (∃ e, e ∈ entries ∧ c = val e) ∨ dictGet name acc = some c := by
  intro entries
  induction entries with
  | nil => intro acc name c h; exact Or.inr h
  | cons e es ih =>
    intro acc name c h
    rw [List.foldl_cons] at h
    rcases ih _ name c h with ⟨e', hm, hv⟩ | hacc
    · exact Or.inl ⟨e', by simp [hm], hv⟩
    · rcases dictGet_dictSet_cases hacc with ⟨_, hc⟩ | hrest
      · exact Or.inl ⟨e, by simp, hc⟩
      · exact Or.inr hrest

/-- C9: every counters record carries the full canonical key set whatever the
raw fields held; each mapped counter is the integer value of its raw field
with unparsable or missing text defaulting to 0; the error counters are
always 0; and every per-interface record of `get_interfaces_counters` is the
`buildCounters` image of one extracted record. -/
theorem counters_full_key_set :
    (∀ (e : RawRecord) k, k ∈ counterCanonicalKeys →
      (dictGet k (buildCounters e)).isSome = true) ∧
    (∀ e : RawRecord, dictGet "rx_errors" (buildCounters e) = some 0 ∧
      dictGet "tx_errors" (buildCounters e) = some 0) ∧
    (∀ (e : RawRecord) kv, kv ∈ counterKeyMap →
      dictGet kv.2 (buildCounters e) = some ((pyInt (e kv.1)).getD 0)) ∧
    (∀ entries name c, dictGet name (pyGetInterfacesCounters entries) = some c →
      ∃ e, e ∈ entries ∧ c = buildCounters e) := by
  refine ⟨?_, ?_, ?_, ?_⟩
  · intro e k hk
    fin_cases hk <;> rfl
  · intro e
    exact ⟨rfl, rfl⟩
  · intro e kv hkv
    fin_cases hkv <;> rfl
  · intro entries name c h
    rcases foldl_dictSet_values
        (fun e : RawRecord => ftosCanonicalIfaceName (e "iface_name")) buildCounters
        entries [] name c h with ⟨e, hm, hv⟩ | habs
    · exact ⟨e, hm, hv⟩
    · cases habs

/-- The all-empty raw record. -/
def recEmpty : RawRecord := fun _ => ""

/-- C9 witness: the theorem applied to the all-empty record. -/
theorem counters_full_key_set_w :
    (dictGet "rx_octets" (buildCounters recEmpty)).isSome = true ∧
    dictGet "rx_octets" (buildCounters recEmpty) = some ((pyInt (recEmpty "rx_octets")).getD 0) ∧
    ∃ e, e ∈ [recEmpty] ∧ buildCounters recEmpty = buildCounters e :=
  ⟨counters_full_key_set.1 recEmpty "rx_octets" (by decide),
   counters_full_key_set.2.2.1 recEmpty ("rx_octets", "rx_octets") (by decide),
   counters_full_key_set.2.2.2 [recEmpty] "" (buildCounters recEmpty) (by rfl)⟩

/-! NTP lemmas. -/

/-- The peers fold keeps every key it has and records every processed remote. -/
lemma ntp_fold_keys (ipF : String → Option String) :
    ∀ (entries : List RawRecord) (acc res : List (String × Unit)),
      entries.foldlM (fun acc e => (ipF (e "remote")).map (fun a => dictSet a () acc)) acc =
        some res →
      (∀ k, (dictGet k acc).isSome = true → (dictGet k res).isSome = true) ∧
      (∀ e ∈ entries, ∃ a, ipF (e "remote") = some a ∧ (dictGet a res).isSome = true) := by
  intro entries
  induction entries with
  | nil =>
    intro acc res h
    simp only [List.foldlM_nil] at h
    cases h
    exact ⟨fun k hk => hk, fun e he => absurd he (by simp)⟩
  | cons e es ih =>
    intro acc res h
    simp only [List.foldlM_cons] at h
    cases ha : ipF (e "remote") with
    | none =>
      rw [ha] at h
      simp only [Option.map_none', Option.none_bind] at h
      cases h
    | some a =>
      rw [ha] at h
      simp only [Option.map_some', Option.some_bind] at h
      obtain ⟨hkeep, hall⟩ := ih _ res h
      refine ⟨fun k hk => hkeep k (dictGet_isSome_dictSet a () hk), ?_⟩
      intro e' he'
      rcases List.mem_cons.mp he' with he' | he'
      · subst he'
        exact ⟨a, ha, hkeep a (by rw [dictGet_dictSet_self]; rfl)⟩
      · exact hall e' he'

/-- C10: `get_ntp_servers` returns exactly `get_ntp_peers`, and on success
every extracted record's remote address, as validated, is a key of the
result bound to the empty record. -/
theorem ntp_servers_equal_peers :
    (∀ ipF entries, pyGetNtpServers ipF entries = pyGetNtpPeers ipF entries) ∧
    (∀ ipF entries res, pyGetNtpPeers ipF entries = some res →
      ∀ e ∈ entries, ∃ a, ipF (e "remote") = some a ∧ dictGet a res = some ()) := by
  constructor
  · intro ipF entries
    rfl
  · intro ipF entries res h e he
    obtain ⟨a, ha, hk⟩ := (ntp_fold_keys ipF entries [] res h).2 e he
    refine ⟨a, ha, ?_⟩
    cases hres : dictGet a res with
    | none => rw [hres] at hk; cases hk
    | some u => cases u; rfl

/-- The identity model of the external address validator. -/
def ipId : String → Option String := fun s => some s

/-- A one-field NTP association record. -/
def ntpRec : RawRecord := fun _ => "10.0.0.9"

/-- C10 witness: the theorem applied to one concrete association record. -/
theorem ntp_servers_equal_peers_w :
    pyGetNtpServers ipId [ntpRec] = pyGetNtpPeers ipId [ntpRec] ∧
    ∃ a, ipId (ntpRec "remote") = some a ∧ dictGet a [("10.0.0.9", ())] = some () :=
  ⟨ntp_servers_equal_peers.1 ipId [ntpRec],
   ntp_servers_equal_peers.2 ipId [ntpRec] [("10.0.0.9", ())] (by rfl) ntpRec
     (List.mem_cons_self ntpRec [])⟩

/-! ## Ping (`FTOSDriver.ping`, result parsing part) -/

/-- One probe entry of a ping result. -/
structure PingProbe where
  ip_address : String
  rtt : Rat
deriving DecidableEq

/-- The success record built by `ping`. -/
structure PingSuccess where
  probes_sent : Int
  packet_loss : Int
  rtt_min : Rat
  rtt_avg : Rat
  rtt_max : Rat
  rtt_stddev : Rat
  results : List PingProbe
deriving DecidableEq

/-- A ping/traceroute style result: either the error dict or the parsed data. -/
inductive PingResult where
  | deviceError (msg : String)
  | success (s : PingSuccess)
deriving DecidableEq

/-- `re.search` of the error marker: the leftmost literal occurrence followed
by at least one non-newline character; the group runs to the end of the line. -/
def errorSearch : List Char → Option (List Char)
  | [] => none
  | c :: cs =>
    if startsWithL "% Error: ".data (c :: cs) then
      match (c :: cs).drop 9 with
      | [] => errorSearch cs
      | d :: ds =>
        if d = '\n' then errorSearch cs
        else some ((d :: ds).takeWhile (fun x => x != '\n'))
    else errorSearch cs

/-- Anchored match of ` = (\d+)\/(\d+)\/(\d+)` returning the three numbers. -/
def eqTripleMatch (l : List Char) : Option (Nat × Nat × Nat) :=
  if startsWithL " = ".data l then
    let r := l.drop 3
    let a := r.takeWhile Char.isDigit
    let r₁ := r.dropWhile Char.isDigit
    match r₁ with
    | '/' :: r₂ =>
      let b := r₂.takeWhile Char.isDigit
      let r₃ := r₂.dropWhile Char.isDigit
      match r₃ with
      | '/' :: r₄ =>
        let c := r₄.takeWhile Char.isDigit
        if a ≠ [] ∧ b ≠ [] ∧ c ≠ [] then
          some (natOfDigits a, natOfDigits b, natOfDigits c)
        else none
      | _ => none
    | _ => none
  else none

/-- Backtracking of the greedy `.+ = (\d+)\/(\d+)\/(\d+)` tail: the dot eats
at least one character and as many as possible, so the rightmost position
with a triple wins. -/
def scanLastEq : List Char → Option (Nat × Nat × Nat)
  | [] => none
  | _ :: cs =>
    match scanLastEq cs with
    | some r => some r
    | none => eqTripleMatch cs

/-- Anchored match of the ping summary regex
`Success rate is [\d\.]+ percent \((\d+)\/(\d+)\).+ = (\d+)\/(\d+)\/(\d+)`;
the dot cannot cross a newline, so the tail is searched on the current line. -/
def pingMatchAt (l : List Char) : Option (Nat × Nat × Nat × Nat × Nat) :=
  if startsWithL "Success rate is ".data l then
    let r := l.drop 16
    let sr := r.takeWhile (fun c => c.isDigit || c = '.')
    let r₁ := r.dropWhile (fun c => c.isDigit || c = '.')
    if sr ≠ [] ∧ startsWithL " percent (".data r₁ then
      let r₂ := r₁.drop 10
      let g0 := r₂.takeWhile Char.isDigit
      let r₃ := r₂.dropWhile Char.isDigit
      match r₃ with
      | '/' :: r₄ =>
        let g1 := r₄.takeWhile Char.isDigit
        let r₅ := r₄.dropWhile Char.isDigit
        match r₅ with
        | ')' :: r₆ =>
          if g0 ≠ [] ∧ g1 ≠ [] then
            match scanLastEq (r₆.takeWhile (fun c => c != '\n')) with
            | some (a, b, c) => some (natOfDigits g0, natOfDigits g1, a, b, c)
            | none => none
          else none
        | _ => none
      | _ => none
    else none
  else none

/-- `re.search` of the ping summary regex: leftmost matching position. -/
def pingSearch : List Char → Option (Nat × Nat × Nat × Nat × Nat)
  | [] => none
  | c :: cs =>
    match pingMatchAt (c :: cs) with
    | some r => some r
    | none => pingSearch cs

/-- The response-parsing part of `ping`: a device error marker yields the
error dict; an unparsable response yields the fixed error text; otherwise the
summary groups (received, sent, min, avg, max) are assembled, with
`float()` of a digit group modelled by its numeric value, the destination
validated by the external `ip`, and the single synthesized probe entry
carrying the average. -/
def pyPing (ipF : String → Option String) (destination result : String) :
    Option PingResult :=
  match errorSearch result.data with
  | some msg => some (PingResult.deviceError (String.mk msg))
  | none =>
    match pingSearch result.data with
    | none => some (PingResult.deviceError "could not parse output")
    | some (recv, sent, mn, av, mx) =>
      (ipF destination).map fun dst =>
        PingResult.success
          { probes_sent := (sent : Int)
            packet_loss := (sent : Int) - (recv : Int)
            rtt_min := (mn : Rat)
            rtt_avg := (av : Rat)
            rtt_max := (mx : Rat)
            rtt_stddev := 0
            results := [⟨dst, (av : Rat)⟩] }

/-- C8: whenever the summary regex matches with groups (received, sent, min,
avg, max) and no device error marker is present, the ping result reports
packet loss = sent - received and a single synthesized probe entry whose rtt
is the average; and the concrete summary with 100 percent (5/5) and 1/2/3
gives probes sent 5, packet loss 0 and rtt 1.0/2.0/3.0. -/
theorem ping_summary :
    (∀ (ipF : String → Option String) (dst result : String) recv sent mn av mx dstIp,
      errorSearch result.data = none →
      pingSearch result.data = some (recv, sent, mn, av, mx) →
      ipF dst = some dstIp →
      pyPing ipF dst result = some (PingResult.success
        { probes_sent := (sent : Int), packet_loss := (sent : Int) - (recv : Int),
          rtt_min := (mn : Rat), rtt_avg := (av : Rat), rtt_max := (mx : Rat),
          rtt_stddev := 0, results := [⟨dstIp, (av : Rat)⟩] })) ∧
    pyPing ipId "10.0.0.1" "Success rate is 100 percent (5/5) ... = 1/2/3" =
      some (PingResult.success
        { probes_sent := 5, packet_loss := 0, rtt_min := 1, rtt_avg := 2, rtt_max := 3,
          rtt_stddev := 0, results := [⟨"10.0.0.1", 2⟩] }) := by
  constructor
  · intro ipF dst result recv sent mn av mx dstIp herr hsearch hip
    unfold pyPing
    simp only [herr, hsearch, hip, Option.map_some']
  · decide

/-- C8 witness: the general part of the theorem applied to the concrete
summary line, with every hypothesis evaluated. -/
theorem ping_summary_w :
    pyPing ipId "10.0.0.2" "Success rate is 80 percent (4/5) ... = 10/20/30" =
      some (PingResult.success
        { probes_sent := ((5 : Nat) : Int),
          packet_loss := ((5 : Nat) : Int) - ((4 : Nat) : Int),
          rtt_min := ((10 : Nat) : Rat), rtt_avg := ((20 : Nat) : Rat),
          rtt_max := ((30 : Nat) : Rat), rtt_stddev := 0,
          results := [⟨"10.0.0.2", ((20 : Nat) : Rat)⟩] }) :=
  ping_summary.1 ipId "10.0.0.2" "Success rate is 80 percent (4/5) ... = 10/20/30"
    4 5 10 20 30 "10.0.0.2" (by decide) (by decide) rfl

/-! ## Interface IP addresses (`get_interfaces_ip`) -/

/-- Per-interface address store: the optional `ipv4` and `ipv6` sub-dicts,
each mapping an address to its stored prefix length (the source stores the
singleton dict with key prefix_length, modelled by the number itself). -/
structure IfaceAddrs where
  v4 : Option (List (String × Nat))
  v6 : Option (List (String × Nat))
deriving DecidableEq

/-- The address table: the interface key is the text captured by the header
regex, or Python None before any header matched. -/
abbrev AddrDict := List (Option String × IfaceAddrs)

/-- Python `str.replace(old, new)` with nonempty `old`: replace all
non-overlapping occurrences left to right.  Fuel-indexed, structural on fuel. -/
def replaceAllAux (pat repl : List Char) : Nat → List Char → List Char
  | _, [] => []
  | 0, l => l
  | fuel + 1, c :: cs =>
    if startsWithL pat (c :: cs) then
      repl ++ replaceAllAux pat repl fuel ((c :: cs).drop pat.length)
    else
      c :: replaceAllAux pat repl fuel cs

/-- Python `str.replace(old, new)` for nonempty `old`. -/
def replaceAllL (pat repl l : List Char) : List Char :=
  replaceAllAux pat repl l.length l

/-- The tail test ` is \w` after the interface group of the IPv4 header regex. -/
def needIs (l : List Char) : Bool :=
  startsWithL " is ".data l &&
    (match (l.drop 4).head? with
     | some c => wordChar c
     | none => false)

/-- Whether the first character is whitespace (the `\s+` tail test). -/
def headWS (l : List Char) : Bool :=
  match l.head? with
  | some c => isWS c
  | none => false

/-- Anchored match of the IPv4 header regex `^(\w+( \d+(\/\d+)?)?) is \w+`,
returning group 1.  The candidate groups are tried in the greedy order of the
regex engine; shortening a `\w+`/`\d+` run can never help because the next
character would stay in the same class. -/
def ifaceMatchV4 (l : List Char) : Option (List Char) :=
  let w := l.takeWhile wordChar
  let r := l.dropWhile wordChar
  if w = [] then none
  else
    match r with
    | ' ' :: r' =>
      let d := r'.takeWhile Char.isDigit
      let r₂ := r'.dropWhile Char.isDigit
      if d = [] then (if needIs r then some w else none)
      else
        match r₂ with
        | '/' :: r₃ =>
          let e2 := r₃.takeWhile Char.isDigit
          let r₄ := r₃.dropWhile Char.isDigit
          if e2 ≠ [] ∧ needIs r₄ then some (w ++ ' ' :: d ++ '/' :: e2)
          else if needIs r₂ then some (w ++ ' ' :: d)
          else if needIs r then some w
          else none
        | _ =>
          if needIs r₂ then some (w ++ ' ' :: d)
          else if needIs r then some w
          else none
    | _ => if needIs r then some w else none

/-- Anchored match of the IPv6 header regex `^(\w+( \d+(\/\d+)?)?)\s+`,
returning group 1 (same greedy candidate order as `ifaceMatchV4`). -/
def ifaceMatchV6 (l : List Char) : Option (List Char) :=
  let w := l.takeWhile wordChar
  let r := l.dropWhile wordChar
  if w = [] then none
  else
    match r with
    | ' ' :: r' =>
      let d := r'.takeWhile Char.isDigit
      let r₂ := r'.dropWhile Char.isDigit
      if d = [] then some w
      else
        match r₂ with
        | '/' :: r₃ =>
          let e2 := r₃.takeWhile Char.isDigit
          let r₄ := r₃.dropWhile Char.isDigit
          if e2 ≠ [] ∧ headWS r₄ then some (w ++ ' ' :: d ++ '/' :: e2)
          else if headWS r₂ then some (w ++ ' ' :: d)
          else some w
        | _ =>
          if headWS r₂ then some (w ++ ' ' :: d)
          else some w
    | c :: _ => if isWS c then some w else none
    | [] => none

/-- Anchored match of `^Internet address is ([0-9\.]+)(?:\/(\d+))?`. -/
def addrMatchV4 (l : List Char) : Option (List Char × Option Nat) :=
  if startsWithL "Internet address is ".data l then
    let r := l.drop 20
    let a := r.takeWhile (fun c => c.isDigit || c = '.')
    let r₁ := r.dropWhile (fun c => c.isDigit || c = '.')
    if a = [] then none
    else
      match r₁ with
      | '/' :: r₂ =>
        let p := r₂.takeWhile Char.isDigit
        if p = [] then some (a, none) else some (a, some (natOfDigits p))
      | _ => some (a, none)
  else none

/-- The character class `[a-f0-9:]`. -/
def hexLowColon (c : Char) : Bool :=
  c.isDigit || ('a' ≤ c && c ≤ 'f') || c = ':'

/-- Anchored match of `^\s*([a-f0-9:]+)(?:\/(\d+))?`. -/
def addrMatchV6 (l : List Char) : Option (List Char × Option Nat) :=
  let r := l.dropWhile isWS
  let a := r.takeWhile hexLowColon
  let r₁ := r.dropWhile hexLowColon
  if a = [] then none
  else
    match r₁ with
    | '/' :: r₂ =>
      let p := r₂.takeWhile Char.isDigit
      if p = [] then some (a, none) else some (a, some (natOfDigits p))
    | _ => some (a, none)

/-- The mask chosen for an IPv4 address line: the explicit suffix or 32. -/
def v4Mask : Option Nat → Nat
  | some mk => mk
  | none => 32

/-- The mask chosen for an IPv6 address line: the explicit suffix, else 64
for a normalized address beginning fe80, else 128. -/
def v6Mask (address : String) : Option Nat → Nat
  | some mk => mk
  | none => if startsWithL "fe80".data address.data then 64 else 128

/-- `address.replace('/%d' % mask, '')` applied when an explicit mask was
captured (a no-op on slash-free normalized addresses). -/
def stripMaskSuffix (popt : Option Nat) (address : String) : String :=
  match popt with
  | some mk => String.mk (replaceAllL ('/' :: (Nat.repr mk).data) [] address.data)
  | none => address

/-- `if iface not in addr: addr[iface] = {'ipv4': {}}` of the IPv4 scanner. -/
def ensureV4 (iface : Option String) (d : AddrDict) : AddrDict :=
  match dictGet iface d with
  | none => dictSet iface ⟨some [], none⟩ d
  | some _ => d

/-- The IPv6 init: missing interface gets `{'ipv6': {}}`, an interface record
without the ipv6 key gets one. -/
def ensureV6 (iface : Option String) (d : AddrDict) : AddrDict :=
  match dictGet iface d with
  | none => dictSet iface ⟨none, some []⟩ d
  | some entry =>
    match entry.v6 with
    | none => dictSet iface ⟨entry.v4, some []⟩ d
    | some _ => d

/-- `addr[iface]['ipv4'][address] = {'prefix_length': mask}`; `none` models
the KeyError when the interface record lacks the ipv4 key. -/
def storeV4 (iface : Option String) (addrFinal : String) (mask : Nat) (d : AddrDict) :
    Option AddrDict :=
  match dictGet iface d with
  | none => none
  | some entry =>
    match entry.v4 with
    | none => none
    | some m => some (dictSet iface ⟨some (dictSet addrFinal mask m), entry.v6⟩ d)

/-- IPv6 counterpart of `storeV4`. -/
def storeV6 (iface : Option String) (addrFinal : String) (mask : Nat) (d : AddrDict) :
    Option AddrDict :=
  match dictGet iface d with
  | none => none
  | some entry =>
    match entry.v6 with
    | none => none
    | some m => some (dictSet iface ⟨entry.v4, some (dictSet addrFinal mask m)⟩ d)

/-- One line of the IPv4 scanner of `get_interfaces_ip`: header lines update
the current interface; address lines validate the address and store its
prefix length; other lines are skipped.  `none` models a raised exception. -/
def ipv4LineStep (ipF : String → Option String) (st : AddrDict × Option String)
    (line : List Char) : Option (AddrDict × Option String) :=
  match ifaceMatchV4 line with
  | some g => some (st.1, some (String.mk g))
  | none =>
    match addrMatchV4 line with
    | none => some st
    | some (araw, popt) =>
      match ipF (String.mk araw) with
      | none => none
      | some address =>
        match storeV4 st.2 (stripMaskSuffix popt address) (v4Mask popt) (ensureV4 st.2 st.1) with
        | none => none
        | some d' => some (d', st.2)

/-- One line of the IPv6 scanner of `get_interfaces_ip`. -/
def ipv6LineStep (ipF : String → Option String) (st : AddrDict × Option String)
    (line : List Char) : Option (AddrDict × Option String) :=
  match ifaceMatchV6 line with
  | some g => some (st.1, some (String.mk g))
  | none =>
    match addrMatchV6 line with
    | none => some st
    | some (araw, popt) =>
      match ipF (String.mk araw) with
      | none => none
      | some address =>
        match storeV6 st.2 (stripMaskSuffix popt address) (v6Mask address popt)
            (ensureV6 st.2 st.1) with
        | none => none
        | some d' => some (d', st.2)

/-- `get_interfaces_ip` over the two command outputs, given as line lists:
the IPv4 scan runs first, the IPv6 scan continues on its table with the
current interface reset. -/
def pyGetInterfacesIp (ipF : String → Option String)
    (v4lines v6lines : List (List Char)) : Option AddrDict := do
  let st4 ← v4lines.foldlM (ipv4LineStep ipF) ([], none)
  let st6 ← v6lines.foldlM (ipv6LineStep ipF) (st4.1, none)
  some st6.1

/-- What `storeV4` wrote can be read back. -/
lemma storeV4_reads {iface : Option String} {addrFinal : String} {mask : Nat}
    {d : AddrDict} {d' : AddrDict}
    (h : storeV4 iface addrFinal mask d = some d') :
    ((dictGet iface d').bind IfaceAddrs.v4).bind (dictGet addrFinal) = some mask := by
  unfold storeV4 at h
  cases hd : dictGet iface d with
  | none => rw [hd] at h; cases h
  | some entry =>
    simp only [hd] at h
    cases hv : entry.v4 with
    | none => simp only [hv] at h; cases h
    | some m =>
      simp only [hv] at h
      injection h with h'
      subst h'
      rw [dictGet_dictSet_self]
      simp only [Option.some_bind]
      rw [dictGet_dictSet_self]

/-- What `storeV6` wrote can be read back. -/
lemma storeV6_reads {iface : Option String} {addrFinal : String} {mask : Nat}
    {d : AddrDict} {d' : AddrDict}
    (h : storeV6 iface addrFinal mask d = some d') :
    ((dictGet iface d').bind IfaceAddrs.v6).bind (dictGet addrFinal) = some mask := by
  unfold storeV6 at h
  cases hd : dictGet iface d with
  | none => rw [hd] at h; cases h
  | some entry =>
    simp only [hd] at h
    cases hv : entry.v6 with
    | none => simp only [hv] at h; cases h
    | some m =>
      simp only [hv] at h
      injection h with h'
      subst h'
      rw [dictGet_dictSet_self]
      simp only [Option.some_bind]
      rw [dictGet_dictSet_self]

/-- C7: on every address line processed by `get_interfaces_ip` the stored
prefix length is the explicit `/len` suffix when present, else 32 for IPv4;
for IPv6 it is the explicit suffix when present, else 64 when the validated
address begins with fe80 and 128 otherwise (`v4Mask`/`v6Mask` spell out
exactly these defaults). -/
theorem interfaces_ip_masks :
    (∀ (ipF : String → Option String) (st : AddrDict × Option String) line araw popt d' i'
      (address : String),
      ifaceMatchV4 line = none →
      addrMatchV4 line = some (araw, popt) →
      ipF (String.mk araw) = some address →
      ipv4LineStep ipF st line = some (d', i') →
      ((dictGet st.2 d').bind IfaceAddrs.v4).bind
        (dictGet (stripMaskSuffix popt address)) = some (v4Mask popt)) ∧
    (∀ (ipF : String → Option String) (st : AddrDict × Option String) line araw popt d' i'
      (address : String),
      ifaceMatchV6 line = none →
      addrMatchV6 line = some (araw, popt) →
      ipF (String.mk araw) = some address →
      ipv6LineStep ipF st line = some (d', i') →
      ((dictGet st.2 d').bind IfaceAddrs.v6).bind
        (dictGet (stripMaskSuffix popt address)) = some (v6Mask address popt)) := by
  constructor
  · intro ipF st line araw popt d' i' address hifm haddr hip hstep
    simp only [ipv4LineStep, hifm, haddr, hip] at hstep
    cases hsto : storeV4 st.2 (stripMaskSuffix popt address) (v4Mask popt)
        (ensureV4 st.2 st.1) with
    | none => rw [hsto] at hstep; cases hstep
    | some d₀ =>
      rw [hsto] at hstep
      simp only [Option.some.injEq, Prod.mk.injEq] at hstep
      obtain ⟨h1, _⟩ := hstep
      subst h1
      exact storeV4_reads hsto
  · intro ipF st line araw popt d' i' address hifm haddr hip hstep
    simp only [ipv6LineStep, hifm, haddr, hip] at hstep
    cases hsto : storeV6 st.2 (stripMaskSuffix popt address) (v6Mask address popt)
        (ensureV6 st.2 st.1) with
    | none => rw [hsto] at hstep; cases hstep
    | some d₀ =>
      rw [hsto] at hstep
      simp only [Option.some.injEq, Prod.mk.injEq] at hstep
      obtain ⟨h1, _⟩ := hstep
      subst h1
      exact storeV6_reads hsto

/-- C7 witness: a slashless IPv4 address line stores 32, and a slashless
link-local IPv6 address line stores 64, with every hypothesis evaluated. -/
theorem interfaces_ip_masks_w :
    ((dictGet (none : Option String)
        [((none : Option String),
          (⟨some [("10.1.1.5", 32)], none⟩ : IfaceAddrs))]).bind IfaceAddrs.v4).bind
      (dictGet (stripMaskSuffix none "10.1.1.5")) = some (v4Mask none) ∧
    ((dictGet (none : Option String)
        [((none : Option String),
          (⟨none, some [("fe80::1", 64)]⟩ : IfaceAddrs))]).bind IfaceAddrs.v6).bind
      (dictGet (stripMaskSuffix none "fe80::1")) = some (v6Mask "fe80::1" none) :=
  ⟨interfaces_ip_masks.1 ipId ([], none) "Internet address is 10.1.1.5".data
      "10.1.1.5".data none
      [((none : Option String), (⟨some [("10.1.1.5", 32)], none⟩ : IfaceAddrs))] none
      "10.1.1.5" (by decide) (by decide) rfl (by decide),
   interfaces_ip_masks.2 ipId ([], none) "fe80::1".data "fe80::1".data none
      [((none : Option String), (⟨none, some [("fe80::1", 64)]⟩ : IfaceAddrs))] none
      "fe80::1" (by decide) (by decide) rfl (by decide)⟩

/-! ## Traceroute (`FTOSDriver.traceroute`, hop grouping) -/

/-- One extracted traceroute record: the (possibly blank) TTL field, the hop
address text, and the probe-times field. -/
structure TraceEntry where
  ttl : String
  hop : String
  probes : String

/-- One probe entry of the traceroute result. -/
structure Probe where
  rtt : Rat
  ip_address : String
  host_name : String
deriving DecidableEq

/-- A hop group: the probes sub-dict, keyed by the running counter. -/
abbrev Group := List (Nat × Probe)

/-- The trace dict: hop groups keyed by integer TTL. -/
abbrev Trace := List (Int × Group)

/-- `re.sub(r'\s+', ' ', text)`: collapse every whitespace run to one space. -/
def collapseWS : List Char → List Char
  | [] => []
  | [c] => if isWS c then [' '] else [c]
  | c :: d :: r =>
    if isWS c && isWS d then collapseWS (d :: r)
    else (if isWS c then ' ' else c) :: collapseWS (d :: r)

/-- The probes field preparation of `traceroute`: drop every ms text, strip,
collapse whitespace, then split on single spaces; an empty remainder yields
no probes. -/
def probeTokens (s : String) : List (List Char) :=
  let p := collapseWS (trimL (replaceAllL ['m', 's'] [] s.data))
  if p = [] then [] else splitOnL [' '] p

/-- The loop state of `traceroute`: the current TTL (Python None before the
first group), the probe counter (unread before the first group; initialized
to 1 in the model), and the trace dict. -/
structure TState where
  cur : Option Int
  ctr : Nat
  trace : Trace

/-- Adding one probe token: parse the float, validate the hop address, then
store under the running counter in the current group.  `none` models the
uncaught ValueError/ValidationError and the KeyError/NameError hit when no
TTL group exists yet. -/
def addProbe (ipF : String → Option String) (e : TraceEntry) (s : TState)
    (tok : List Char) : Option TState :=
  match pyFloat (String.mk tok) with
  | none => none
  | some r =>
    match ipF e.hop with
    | none => none
    | some a =>
      match s.cur with
      | none => none
      | some c =>
        match dictGet c s.trace with
        | none => none
        | some g =>
          some ⟨s.cur, s.ctr + 1, dictSet c (dictSet s.ctr ⟨r, a, e.hop⟩ g) s.trace⟩

/-- The group-start test of the loop: a nonblank TTL field is parsed with
`int()` and, when it differs from the current TTL, starts a fresh group and
resets the counter. -/
def resetPhase (s : TState) (e : TraceEntry) : Option TState :=
  if trimL e.ttl.data ≠ [] then
    match pyInt e.ttl with
    | none => none
    | some t =>
      if s.cur ≠ some t then some ⟨some t, 1, dictSet t [] s.trace⟩ else some s
  else some s

/-- One iteration of the traceroute loop. -/
def tracerouteStep (ipF : String → Option String) (s : TState) (e : TraceEntry) :
    Option TState :=
  match resetPhase s e with
  | none => none
  | some s₁ => (probeTokens e.probes).foldlM (addProbe ipF e) s₁

/-- The hop-grouping part of `traceroute` over the extracted records.
`none` models a raised exception. -/
def pyTraceroute (ipF : String → Option String) (rs : List TraceEntry) : Option Trace :=
  (rs.foldlM (tracerouteStep ipF) ⟨none, 1, []⟩).map TState.trace

/-- The probe a successful `addProbe` stores for a token. -/
def specProbe (ipF : String → Option String) (e : TraceEntry) (tok : List Char) : Probe :=
  ⟨(pyFloat (String.mk tok)).getD 0, (ipF e.hop).getD "", e.hop⟩

/-- Fill-down of the TTL: a blank field keeps the previous value. -/
def specCur (cur : Option Int) (e : TraceEntry) : Option Int :=
  if trimL e.ttl.data ≠ [] then pyInt e.ttl else cur

/-- Claim-side state for one tracked TTL: the fill-down value and the probe
list of the last run of that TTL so far (none while no run has started). -/
structure SpecSt where
  cur : Option Int
  acc : Option (List Probe)

/-- One step of the claim description for TTL t: a record naming t while the
current TTL differs restarts the group (last-seen-wins); a record whose
assigned TTL is t appends its tokens in order; others leave it alone. -/
def specStep (ipF : String → Option String) (t : Int) (q : SpecSt) (e : TraceEntry) :
    SpecSt :=
  let c' := specCur q.cur e
  let ps := (probeTokens e.probes).map (specProbe ipF e)
  ⟨c',
    if trimL e.ttl.data ≠ [] ∧ pyInt e.ttl = some t ∧ q.cur ≠ some t then some ps
    else if c' = some t then q.acc.map (fun l => l ++ ps)
    else q.acc⟩

/-- The probe list of the last run of TTL t over the whole record list. -/
def lastRunProbes (ipF : String → Option String) (t : Int) (rs : List TraceEntry) :
    Option (List Probe) :=
  (rs.foldl (specStep ipF t) ⟨none, none⟩).acc

/-- Ordinal numbering of a probe list from a starting index. -/
def numberFrom : Nat → List Probe → Group
  | _, [] => []
  | n, p :: ps => (n, p) :: numberFrom (n + 1) ps

/-- Numbering preserves length. -/
lemma numberFrom_length : ∀ (ps : List Probe) (n : Nat), (numberFrom n ps).length = ps.length := by
  intro ps
  induction ps with
  | nil => intro n; rfl
  | cons p ps ih => intro n; simp [numberFrom, ih]

/-- Numbering of a snoc. -/
lemma numberFrom_append_one : ∀ (ps : List Probe) (n : Nat) (p : Probe),
    numberFrom n (ps ++ [p]) = numberFrom n ps ++ [(n + ps.length, p)] := by
  intro ps
  induction ps with
  | nil => intro n p; simp [numberFrom]
  | cons q ps ih =>
    intro n p
    rw [List.cons_append, numberFrom, ih (n + 1) p, numberFrom, List.length_cons,
      List.cons_append]
    have h : n + 1 + ps.length = n + (ps.length + 1) := by omega
    rw [h]

/-- Keys of a numbered group are below the start plus the length. -/
lemma dictGet_numberFrom_ge : ∀ (ps : List Probe) (n k : Nat),
    n + ps.length ≤ k → dictGet k (numberFrom n ps) = none := by
  intro ps
  induction ps with
  | nil => intro n k _; rfl
  | cons p ps ih =>
    intro n k hk
    simp only [List.length_cons] at hk
    rw [numberFrom, dictGet, if_neg (by omega)]
    exact ih (n + 1) k (by omega)

/-- Writing a fresh key appends it. -/
lemma dictSet_fresh {α β : Type} [DecidableEq α] {k : α} (v : β) :
    ∀ l : List (α × β), dictGet k l = none → dictSet k v l = l ++ [(k, v)] := by
  intro l
  induction l with
  | nil => intro _; rfl
  | cons kv r ih =>
    obtain ⟨k', v'⟩ := kv
    intro h
    rw [dictGet] at h
    by_cases he : k' = k
    · rw [if_pos he] at h; cases h
    · rw [if_neg he] at h
      rw [dictSet, if_neg he, ih h, List.cons_append]

/-- The loop invariant: whenever a current TTL is set, its group exists, is
numbered from 1, and the counter is one past its size. -/
def Inv (s : TState) : Prop :=
  ∀ c, s.cur = some c →
    ∃ ps, dictGet c s.trace = some (numberFrom 1 ps) ∧ s.ctr = ps.length + 1

/-- The projections of `specStep`. -/
lemma specStep_cur (ipF : String → Option String) (t : Int) (q : SpecSt) (e : TraceEntry) :
    (specStep ipF t q e).cur = specCur q.cur e := rfl

/-- The accumulator equation of `specStep`. -/
lemma specStep_acc (ipF : String → Option String) (t : Int) (q : SpecSt) (e : TraceEntry) :
    (specStep ipF t q e).acc =
      (if trimL e.ttl.data ≠ [] ∧ pyInt e.ttl = some t ∧ q.cur ≠ some t then
        some ((probeTokens e.probes).map (specProbe ipF e))
      else if specCur q.cur e = some t then
        q.acc.map (fun l => l ++ (probeTokens e.probes).map (specProbe ipF e))
      else q.acc) := rfl

/-- Anatomy of a successful `addProbe`. -/
lemma addProbe_some_anatomy {ipF : String → Option String} {e : TraceEntry}
    {s : TState} {tok : List Char} {s₁ : TState}
    (h : addProbe ipF e s tok = some s₁) :
    ∃ r a c g, pyFloat (String.mk tok) = some r ∧ ipF e.hop = some a ∧
      s.cur = some c ∧ dictGet c s.trace = some g ∧
      s₁ = ⟨some c, s.ctr + 1, dictSet c (dictSet s.ctr ⟨r, a, e.hop⟩ g) s.trace⟩ := by
  unfold addProbe at h
  cases hfl : pyFloat (String.mk tok) with
  | none => rw [hfl] at h; cases h
  | some r =>
    simp only [hfl] at h
    cases hipa : ipF e.hop with
    | none => rw [hipa] at h; cases h
    | some a =>
      simp only [hipa] at h
      cases hcur : s.cur with
      | none => rw [hcur] at h; cases h
      | some c =>
        simp only [hcur] at h
        cases hg : dictGet c s.trace with
        | none => rw [hg] at h; cases h
        | some g =>
          simp only [hg, Option.some.injEq] at h
          exact ⟨r, a, c, g, rfl, rfl, rfl, hg, h.symm⟩

/-- Collective effect of the token loop from a state satisfying the
invariant: the current TTL is unchanged, the invariant is kept, a nonempty
token list needs a current TTL, other groups are untouched, and the current
group gains exactly the probes of the tokens in order. -/
lemma probeFold (ipF : String → Option String) (e : TraceEntry) :
    ∀ (toks : List (List Char)) (s s' : TState), Inv s →
      toks.foldlM (addProbe ipF e) s = some s' →
      s'.cur = s.cur ∧ Inv s' ∧
      (toks ≠ [] → ∃ c, s.cur = some c) ∧
      (∀ u : Int, s.cur ≠ some u → dictGet u s'.trace = dictGet u s.trace) ∧
      (∀ (c : Int) (ps : List Probe), s.cur = some c →
        dictGet c s.trace = some (numberFrom 1 ps) → s.ctr = ps.length + 1 →
        dictGet c s'.trace = some (numberFrom 1 (ps ++ toks.map (specProbe ipF e)))) := by
  intro toks
  induction toks with
  | nil =>
    intro s s' hInv h
    simp only [List.foldlM_nil, Option.pure_def, Option.some.injEq] at h
    subst h
    refine ⟨rfl, hInv, by simp, fun u _ => rfl, ?_⟩
    intro c ps _ hg _
    simpa using hg
  | cons tok toks ih =>
    intro s s' hInv h
    simp only [List.foldlM_cons] at h
    cases hstep : addProbe ipF e s tok with
    | none => rw [hstep] at h; simp at h
    | some s₁ =>
      rw [hstep] at h
      simp only [Option.bind_eq_bind, Option.some_bind] at h
      obtain ⟨r, a, c₀, g, hfl, hipa, hcur, hg, hs₁⟩ := addProbe_some_anatomy hstep
      subst hs₁
      obtain ⟨ps₀, hg₀, hctr₀⟩ := hInv c₀ hcur
      have hgg : g = numberFrom 1 ps₀ := by
        rw [hg] at hg₀
        exact Option.some.inj hg₀
      have hsp : specProbe ipF e tok = ⟨r, a, e.hop⟩ := by
        unfold specProbe
        rw [hfl, hipa]
        rfl
      have hInv₁ : Inv ⟨some c₀, s.ctr + 1,
          dictSet c₀ (dictSet s.ctr ⟨r, a, e.hop⟩ g) s.trace⟩ := by
        intro c hc
        injection hc with hc
        subst hc
        refine ⟨ps₀ ++ [⟨r, a, e.hop⟩], ?_, ?_⟩
        · rw [dictGet_dictSet_self]
          have hfresh : dictGet s.ctr g = none := by
            rw [hgg]
            exact dictGet_numberFrom_ge ps₀ 1 s.ctr (by omega)
          rw [dictSet_fresh _ g hfresh, hgg, numberFrom_append_one, hctr₀,
            Nat.add_comm 1 ps₀.length]
        · rw [List.length_append]
          simp only [List.length_singleton]
          omega
      obtain ⟨ihcur, ihInv, _, ihun, ihgr⟩ := ih _ s' hInv₁ h
      refine ⟨by rw [ihcur, hcur], ihInv, fun _ => ⟨c₀, hcur⟩, ?_, ?_⟩
      · intro u hu
        have hne : c₀ ≠ u := fun hcu => hu (by rw [hcur, hcu])
        have h1 := ihun u (by simp only []; intro hh; injection hh with hh; exact hne hh)
        rw [h1]
        exact dictGet_dictSet_ne _ hne s.trace
      · intro c ps hc hgps hctr
        rw [hcur] at hc
        injection hc with hc
        subst hc
        have hgg2 : g = numberFrom 1 ps := by
          rw [hg] at hgps
          exact Option.some.inj hgps
        have hfresh2 : dictGet s.ctr g = none := by
          rw [hgg2]
          exact dictGet_numberFrom_ge ps 1 s.ctr (by omega)
        have hstore : dictSet s.ctr (⟨r, a, e.hop⟩ : Probe) g =
            numberFrom 1 (ps ++ [⟨r, a, e.hop⟩]) := by
          rw [dictSet_fresh _ g hfresh2, hgg2, numberFrom_append_one, hctr,
            Nat.add_comm 1 ps.length]
        have hnext := ihgr c₀ (ps ++ [⟨r, a, e.hop⟩]) rfl
          (by
            show dictGet c₀ (dictSet c₀ (dictSet s.ctr (⟨r, a, e.hop⟩ : Probe) g) s.trace) =
              some (numberFrom 1 (ps ++ [⟨r, a, e.hop⟩]))
            rw [dictGet_dictSet_self, hstore])
          (by
            show s.ctr + 1 = (ps ++ [(⟨r, a, e.hop⟩ : Probe)]).length + 1
            rw [List.length_append]
            simp only [List.length_singleton]
            omega)
        rw [List.map_cons, hsp, ← List.singleton_append, ← List.append_assoc]
        exact hnext

/-- The append case of the simulation: tokens of a record whose assigned TTL
is the tracked one extend the tracked group in order. -/
lemma appendCase (ipF : String → Option String) (e : TraceEntry) (t : Int)
    {s s₁ : TState} {qacc : Option (List Probe)} (hInv : Inv s)
    (hstep : (probeTokens e.probes).foldlM (addProbe ipF e) s = some s₁)
    (hcur : s.cur = some t)
    (hrel : dictGet t s.trace = qacc.map (numberFrom 1)) :
    dictGet t s₁.trace =
      (qacc.map (fun l => l ++ (probeTokens e.probes).map (specProbe ipF e))).map
        (numberFrom 1) := by
  obtain ⟨_, _, _, _, hgr⟩ := probeFold ipF e _ s s₁ hInv hstep
  obtain ⟨ps₀, hg₀, hctr₀⟩ := hInv t hcur
  cases hacc : qacc with
  | none =>
    rw [hacc] at hrel
    simp only [Option.map_none'] at hrel
    rw [hrel] at hg₀
    cases hg₀
  | some psR =>
    rw [hacc] at hrel
    simp only [Option.map_some'] at hrel
    have hctrR : s.ctr = psR.length + 1 := by
      rw [hrel] at hg₀
      have hlen := congrArg List.length (Option.some.inj hg₀)
      rw [numberFrom_length, numberFrom_length] at hlen
      omega
    simp only [Option.map_some']
    exact hgr t psR hcur hrel hctrR

/-- The simulation: from related states, the loop and the claim-side fold
stay related on the tracked TTL. -/
lemma traceSim (ipF : String → Option String) (t : Int) :
    ∀ (rs : List TraceEntry) (s : TState) (q : SpecSt) (fin : TState),
      Inv s → q.cur = s.cur →
      dictGet t s.trace = q.acc.map (numberFrom 1) →
      rs.foldlM (tracerouteStep ipF) s = some fin →
      dictGet t fin.trace = ((rs.foldl (specStep ipF t) q).acc).map (numberFrom 1) := by
  intro rs
  induction rs with
  | nil =>
    intro s q fin hInv hqc hrel h
    simp only [List.foldlM_nil, Option.pure_def, Option.some.injEq] at h
    subst h
    simpa using hrel
  | cons e rs ih =>
    intro s q fin hInv hqc hrel h
    simp only [List.foldlM_cons] at h
    cases hstep : tracerouteStep ipF s e with
    | none => rw [hstep] at h; simp at h
    | some s₁ =>
      rw [hstep] at h
      simp only [Option.bind_eq_bind, Option.some_bind] at h
      rw [List.foldl_cons]
      unfold tracerouteStep at hstep
      cases hres : resetPhase s e with
      | none => rw [hres] at hstep; cases hstep
      | some sₐ =>
        simp only [hres] at hstep
        by_cases hb : trimL e.ttl.data = []
        · -- blank TTL: fill-down
          have hsa : s = sₐ := by
            unfold resetPhase at hres
            rw [if_neg (by simpa using hb)] at hres
            exact Option.some.inj hres
          subst hsa
          obtain ⟨hc1, hInv1, _, hun1, _⟩ := probeFold ipF e _ s s₁ hInv hstep
          have hcur' : specCur q.cur e = q.cur := by
            unfold specCur
            rw [if_neg (by simpa using hb)]
          have hstart : ¬(trimL e.ttl.data ≠ [] ∧ pyInt e.ttl = some t ∧ q.cur ≠ some t) :=
            fun hS => hS.1 hb
          have hq' : (specStep ipF t q e).cur = s₁.cur := by
            rw [specStep_cur, hcur', hqc, hc1]
          by_cases hqt : q.cur = some t
          · have hscur : s.cur = some t := by rw [← hqc]; exact hqt
            have hrel' : dictGet t s₁.trace = (specStep ipF t q e).acc.map (numberFrom 1) := by
              rw [specStep_acc, if_neg hstart, if_pos (by rw [hcur']; exact hqt)]
              exact appendCase ipF e t hInv hstep hscur hrel
            exact ih s₁ (specStep ipF t q e) fin hInv1 hq' hrel' h
          · have hsnt : s.cur ≠ some t := by rw [← hqc]; exact hqt
            have hrel' : dictGet t s₁.trace = (specStep ipF t q e).acc.map (numberFrom 1) := by
              rw [specStep_acc, if_neg hstart, if_neg (by rw [hcur']; exact hqt), hun1 t hsnt]
              exact hrel
            exact ih s₁ (specStep ipF t q e) fin hInv1 hq' hrel' h
        · -- nonblank TTL
          have hnb : trimL e.ttl.data ≠ [] := hb
          unfold resetPhase at hres
          rw [if_pos (by simpa using hnb)] at hres
          cases hpi : pyInt e.ttl with
          | none => rw [hpi] at hres; cases hres
          | some t₀ =>
            simp only [hpi] at hres
            have hcur' : specCur q.cur e = some t₀ := by
              unfold specCur
              rw [if_pos (by simpa using hnb), hpi]
            by_cases hret : s.cur = some t₀
            · -- contiguous repeat: no reset
              rw [if_neg (not_not_intro hret)] at hres
              have hsa : s = sₐ := Option.some.inj hres
              subst hsa
              obtain ⟨hc1, hInv1, _, hun1, _⟩ := probeFold ipF e _ s s₁ hInv hstep
              have hq' : (specStep ipF t q e).cur = s₁.cur := by
                rw [specStep_cur, hcur', hc1, hret]
              have hstart : ¬(trimL e.ttl.data ≠ [] ∧ pyInt e.ttl = some t ∧
                  q.cur ≠ some t) := by
                intro hS
                apply hS.2.2
                rw [hqc, hret]
                have htt0 : t₀ = t := by
                  rw [hpi] at hS
                  exact Option.some.inj hS.2.1
                rw [htt0]
              by_cases htt : t₀ = t
              · subst htt
                have hrel' : dictGet t₀ s₁.trace =
                    (specStep ipF t₀ q e).acc.map (numberFrom 1) := by
                  rw [specStep_acc, if_neg hstart, if_pos hcur']
                  exact appendCase ipF e t₀ hInv hstep hret hrel
                exact ih s₁ (specStep ipF t₀ q e) fin hInv1 hq' hrel' h
              · have hstart' : ¬(trimL e.ttl.data ≠ [] ∧ pyInt e.ttl = some t ∧
                    q.cur ≠ some t) := by
                  intro hS
                  rw [hpi] at hS
                  exact htt (Option.some.inj hS.2.1)
                have hsnt : s.cur ≠ some t := by
                  rw [hret]
                  intro hh
                  exact htt (Option.some.inj hh)
                have hrel' : dictGet t s₁.trace =
                    (specStep ipF t q e).acc.map (numberFrom 1) := by
                  rw [specStep_acc, if_neg hstart',
                    if_neg (by rw [hcur']; intro hh; exact htt (Option.some.inj hh)),
                    hun1 t hsnt]
                  exact hrel
                exact ih s₁ (specStep ipF t q e) fin hInv1 hq' hrel' h
            · -- fresh or reappearing TTL: reset (last-seen-wins)
              rw [if_pos hret] at hres
              have hsa : sₐ = ⟨some t₀, 1, dictSet t₀ [] s.trace⟩ :=
                (Option.some.inj hres).symm
              subst hsa
              have hInvA : Inv ⟨some t₀, 1, dictSet t₀ [] s.trace⟩ := by
                intro c hc
                injection hc with hc
                subst hc
                exact ⟨[], by rw [dictGet_dictSet_self]; rfl, rfl⟩
              obtain ⟨hc1, hInv1, _, hun1, hgr1⟩ := probeFold ipF e _ _ s₁ hInvA hstep
              have hq' : (specStep ipF t q e).cur = s₁.cur := by
                rw [specStep_cur, hcur', hc1]
              by_cases htt : t₀ = t
              · subst htt
                have hstart : trimL e.ttl.data ≠ [] ∧ pyInt e.ttl = some t₀ ∧
                    q.cur ≠ some t₀ := ⟨hnb, hpi, by rw [hqc]; exact hret⟩
                have hrel' : dictGet t₀ s₁.trace =
                    (specStep ipF t₀ q e).acc.map (numberFrom 1) := by
                  rw [specStep_acc, if_pos hstart]
                  simp only [Option.map_some']
                  have hnew := hgr1 t₀ [] rfl (by rw [dictGet_dictSet_self]; rfl) rfl
                  simpa using hnew
                exact ih s₁ (specStep ipF t₀ q e) fin hInv1 hq' hrel' h
              · have hstart' : ¬(trimL e.ttl.data ≠ [] ∧ pyInt e.ttl = some t ∧
                    q.cur ≠ some t) := by
                  intro hS
                  rw [hpi] at hS
                  exact htt (Option.some.inj hS.2.1)
                have hrel' : dictGet t s₁.trace =
                    (specStep ipF t q e).acc.map (numberFrom 1) := by
                  rw [specStep_acc, if_neg hstart',
                    if_neg (by rw [hcur']; intro hh; exact htt (Option.some.inj hh))]
                  have hstept : dictGet t s₁.trace =
                      dictGet t (dictSet t₀ ([] : Group) s.trace) :=
                    hun1 t (by simp only []; intro hh; injection hh with hh; exact htt hh)
                  rw [hstept, dictGet_dictSet_ne _ (fun hc => htt hc) s.trace]
                  exact hrel
                exact ih s₁ (specStep ipF t q e) fin hInv1 hq' hrel' h

/-- C2: on every successfully processed record sequence, the group stored
under an integer TTL t is exactly the numbered-from-1 probe list of the last
run of t: records are grouped by integer TTL, a blank TTL joins the most
recent nonblank one (fill-down, `specCur`), tokens of the prepared probes
field become consecutive ordinal entries from 1 in parse order, and a
non-contiguous reappearance of t restarts (overwrites) its group
(`specStep`). -/
theorem traceroute_grouping (ipF : String → Option String) (rs : List TraceEntry)
    (T : Trace) (t : Int) (h : pyTraceroute ipF rs = some T) :
    dictGet t T = (lastRunProbes ipF t rs).map (numberFrom 1) := by
  unfold pyTraceroute at h
  cases hf : rs.foldlM (tracerouteStep ipF) ⟨none, 1, []⟩ with
  | none => rw [hf] at h; cases h
  | some fin =>
    rw [hf] at h
    simp only [Option.map_some', Option.some.injEq] at h
    subst h
    unfold lastRunProbes
    exact traceSim ipF t rs ⟨none, 1, []⟩ ⟨none, none⟩ fin
      (fun c hc => by cases hc) rfl rfl hf

/-- Two traceroute records: hop 1 with two probes, then a blank-TTL
continuation record with one probe. -/
def traceRecs : List TraceEntry :=
  [⟨"1", "10.0.0.1", "1.0 ms 2.0 ms"⟩, ⟨"", "10.0.0.2", "3.0 ms"⟩]

/-- The trace the model builds for `traceRecs`. -/
def traceOut : Trace :=
  [(1, [(1, ⟨1, "10.0.0.1", "10.0.0.1"⟩), (2, ⟨2, "10.0.0.1", "10.0.0.1"⟩),
        (3, ⟨3, "10.0.0.2", "10.0.0.2"⟩)])]

/-- C2 witness: the theorem applied to two concrete records whose second has
a blank TTL, with the success hypothesis evaluated. -/
theorem traceroute_grouping_w :
    dictGet 1 traceOut = (lastRunProbes ipId 1 traceRecs).map (numberFrom 1) :=
  traceroute_grouping ipId traceRecs traceOut 1 (by decide)

/-! Totality of the traceroute loop on well-formed record sequences (C5). -/

/-- Emptiness test spelled out. -/
lemma isEmpty_true_iff {α : Type} (l : List α) : l.isEmpty = true ↔ l = [] := by
  cases l <;> simp

/-- Per-record parse condition: the TTL field is blank or parses as an
integer, and either there are no probe tokens or every token parses as a
float and the hop validates as an address. -/
def entryParses (ipF : String → Option String) (e : TraceEntry) : Bool :=
  ((trimL e.ttl.data).isEmpty || (pyInt e.ttl).isSome) &&
  ((probeTokens e.probes).isEmpty ||
    ((probeTokens e.probes).all (fun tok => (pyFloat (String.mk tok)).isSome) &&
      (ipF e.hop).isSome))

/-- No record with probe tokens precedes the first nonblank-TTL record. -/
def leadingOk : List TraceEntry → Bool
  | [] => true
  | e :: es =>
    if (trimL e.ttl.data).isEmpty then (probeTokens e.probes).isEmpty && leadingOk es
    else true

/-- `resetPhase` on a blank TTL. -/
lemma resetPhase_blank {s : TState} {e : TraceEntry} (h : trimL e.ttl.data = []) :
    resetPhase s e = some s := by
  unfold resetPhase
  rw [if_neg (not_not_intro h)]

/-- `resetPhase` on a contiguous repeat of the current TTL. -/
lemma resetPhase_keep {s : TState} {e : TraceEntry} {t₀ : Int}
    (hnb : trimL e.ttl.data ≠ []) (hpi : pyInt e.ttl = some t₀)
    (hc : s.cur = some t₀) : resetPhase s e = some s := by
  unfold resetPhase
  rw [if_pos hnb]
  simp only [hpi]
  rw [if_neg (not_not_intro hc)]

/-- `resetPhase` on a fresh TTL. -/
lemma resetPhase_reset {s : TState} {e : TraceEntry} {t₀ : Int}
    (hnb : trimL e.ttl.data ≠ []) (hpi : pyInt e.ttl = some t₀)
    (hc : s.cur ≠ some t₀) :
    resetPhase s e = some ⟨some t₀, 1, dictSet t₀ [] s.trace⟩ := by
  unfold resetPhase
  rw [if_pos hnb]
  simp only [hpi]
  rw [if_pos hc]

/-- `addProbe` succeeds from an invariant state with a current TTL when the
token and the hop parse. -/
lemma addProbe_ok (ipF : String → Option String) (e : TraceEntry) {s : TState} {c : Int}
    (hc : s.cur = some c) (hInv : Inv s) {tok : List Char}
    (hf : (pyFloat (String.mk tok)).isSome = true) (hi : (ipF e.hop).isSome = true) :
    ∃ s₁, addProbe ipF e s tok = some s₁ ∧ Inv s₁ ∧ s₁.cur = some c := by
  obtain ⟨ps₀, hg₀, hctr₀⟩ := hInv c hc
  obtain ⟨r, hr⟩ := Option.isSome_iff_exists.mp hf
  obtain ⟨a, ha⟩ := Option.isSome_iff_exists.mp hi
  refine ⟨⟨some c, s.ctr + 1,
    dictSet c (dictSet s.ctr ⟨r, a, e.hop⟩ (numberFrom 1 ps₀)) s.trace⟩, ?_, ?_, rfl⟩
  · simp only [addProbe, hr, ha, hc, hg₀]
  · intro c' hc'
    injection hc' with hc'
    subst hc'
    refine ⟨ps₀ ++ [⟨r, a, e.hop⟩], ?_, ?_⟩
    · show dictGet c (dictSet c (dictSet s.ctr ⟨r, a, e.hop⟩ (numberFrom 1 ps₀)) s.trace) =
        some (numberFrom 1 (ps₀ ++ [⟨r, a, e.hop⟩]))
      rw [dictGet_dictSet_self]
      have hfresh : dictGet s.ctr (numberFrom 1 ps₀) = none :=
        dictGet_numberFrom_ge ps₀ 1 s.ctr (by omega)
      rw [dictSet_fresh _ _ hfresh, numberFrom_append_one, hctr₀,
        Nat.add_comm 1 ps₀.length]
    · show s.ctr + 1 = (ps₀ ++ [(⟨r, a, e.hop⟩ : Probe)]).length + 1
      rw [List.length_append]
      simp only [List.length_singleton]
      omega

/-- The token loop succeeds when every token parses. -/
lemma probeFoldTotal (ipF : String → Option String) (e : TraceEntry) :
    ∀ (toks : List (List Char)) (s : TState) (c : Int), Inv s → s.cur = some c →
      (∀ tok ∈ toks, (pyFloat (String.mk tok)).isSome = true) →
      (ipF e.hop).isSome = true →
      ∃ s', toks.foldlM (addProbe ipF e) s = some s' ∧ Inv s' ∧ s'.cur = some c := by
  intro toks
  induction toks with
  | nil =>
    intro s c hInv hc _ _
    exact ⟨s, rfl, hInv, hc⟩
  | cons tok toks ih =>
    intro s c hInv hc hall hi
    obtain ⟨s₁, hstep, hInv₁, hc₁⟩ := addProbe_ok ipF e hc hInv (hall tok (by simp)) hi
    obtain ⟨s', hfold, hInv', hc'⟩ := ih s₁ c hInv₁ hc₁
      (fun tok' ht => hall tok' (by simp [ht])) hi
    refine ⟨s', ?_, hInv', hc'⟩
    rw [List.foldlM_cons, hstep]
    simp only [Option.bind_eq_bind, Option.some_bind]
    exact hfold

/-- One loop iteration succeeds on a parse-clean record, provided a record
with probe tokens is not hit before any TTL group exists. -/
lemma stepTotal (ipF : String → Option String) (e : TraceEntry) {s : TState}
    (hInv : Inv s) (hp : entryParses ipF e = true)
    (hlead : s.cur = none → (trimL e.ttl.data).isEmpty = true →
      (probeTokens e.probes).isEmpty = true) :
    ∃ s₁, tracerouteStep ipF s e = some s₁ ∧ Inv s₁ ∧
      (s₁.cur = none → s.cur = none ∧ (trimL e.ttl.data).isEmpty = true) := by
  unfold entryParses at hp
  rw [Bool.and_eq_true] at hp
  obtain ⟨hp1, hp2⟩ := hp
  by_cases hb : (trimL e.ttl.data).isEmpty = true
  · have hres : resetPhase s e = some s := resetPhase_blank ((isEmpty_true_iff _).mp hb)
    cases htoks : probeTokens e.probes with
    | nil =>
      refine ⟨s, ?_, hInv, fun hc => ⟨hc, hb⟩⟩
      unfold tracerouteStep
      rw [hres, htoks]
      rfl
    | cons tok toks =>
      cases hcur : s.cur with
      | none =>
        exfalso
        have hempty := hlead hcur hb
        rw [htoks] at hempty
        simp at hempty
      | some c =>
        rw [Bool.or_eq_true] at hp2
        rcases hp2 with hp2 | hp2
        · exfalso
          rw [htoks] at hp2
          simp at hp2
        · rw [Bool.and_eq_true] at hp2
          obtain ⟨hfl, hip⟩ := hp2
          obtain ⟨s', hfold, hInv', hc'⟩ := probeFoldTotal ipF e (probeTokens e.probes)
            s c hInv hcur
            (fun tok' ht => by
              have hx := List.all_eq_true.mp hfl tok' ht
              simpa using hx) hip
          refine ⟨s', ?_, hInv', fun hnone => ?_⟩
          · unfold tracerouteStep
            rw [hres]
            exact hfold
          · exfalso
            rw [hc'] at hnone
            cases hnone
  · have hnb : trimL e.ttl.data ≠ [] := by
      intro hcon
      exact hb (by rw [hcon]; rfl)
    rw [Bool.or_eq_true] at hp1
    rcases hp1 with hp1 | hp1
    · exact absurd hp1 hb
    · obtain ⟨t₀, ht₀⟩ := Option.isSome_iff_exists.mp hp1
      have hresGen : ∃ sₐ, resetPhase s e = some sₐ ∧ Inv sₐ ∧ sₐ.cur = some t₀ := by
        by_cases hc : s.cur = some t₀
        · exact ⟨s, resetPhase_keep hnb ht₀ hc, hInv, hc⟩
        · refine ⟨⟨some t₀, 1, dictSet t₀ [] s.trace⟩, resetPhase_reset hnb ht₀ hc, ?_, rfl⟩
          intro c' hc'
          injection hc' with hc'
          subst hc'
          exact ⟨[], by rw [dictGet_dictSet_self]; rfl, rfl⟩
      obtain ⟨sₐ, hres, hInvA, hcurA⟩ := hresGen
      cases htoks : probeTokens e.probes with
      | nil =>
        refine ⟨sₐ, ?_, hInvA, fun hnone => ?_⟩
        · unfold tracerouteStep
          rw [hres, htoks]
          rfl
        · exfalso
          rw [hcurA] at hnone
          cases hnone
      | cons tok toks =>
        rw [Bool.or_eq_true] at hp2
        rcases hp2 with hp2 | hp2
        · exfalso
          rw [htoks] at hp2
          simp at hp2
        · rw [Bool.and_eq_true] at hp2
          obtain ⟨hfl, hip⟩ := hp2
          obtain ⟨s', hfold, hInv', hc'⟩ := probeFoldTotal ipF e (probeTokens e.probes)
            sₐ t₀ hInvA hcurA
            (fun tok' ht => by
              have hx := List.all_eq_true.mp hfl tok' ht
              simpa using hx) hip
          refine ⟨s', ?_, hInv', fun hnone => ?_⟩
          · unfold tracerouteStep
            rw [hres]
            exact hfold
          · exfalso
            rw [hc'] at hnone
            cases hnone

/-- The whole loop succeeds on parse-clean sequences whose leading blank-TTL
records carry no probe tokens. -/
lemma traceTotal (ipF : String → Option String) :
    ∀ (rs : List TraceEntry) (s : TState), Inv s →
      (∀ e ∈ rs, entryParses ipF e = true) →
      (s.cur = none → leadingOk rs = true) →
      ∃ fin, rs.foldlM (tracerouteStep ipF) s = some fin := by
  intro rs
  induction rs with
  | nil =>
    intro s _ _ _
    exact ⟨s, rfl⟩
  | cons e es ih =>
    intro s hInv hall hlead
    have hlead' : s.cur = none → (trimL e.ttl.data).isEmpty = true →
        (probeTokens e.probes).isEmpty = true := by
      intro hc hblank
      have hl := hlead hc
      unfold leadingOk at hl
      rw [if_pos hblank] at hl
      rw [Bool.and_eq_true] at hl
      exact hl.1
    obtain ⟨s₁, hstep, hInv₁, hback⟩ := stepTotal ipF e hInv (hall e (by simp)) hlead'
    have hleadEs : s₁.cur = none → leadingOk es = true := by
      intro hnone
      obtain ⟨hsnone, hblank⟩ := hback hnone
      have hl := hlead hsnone
      unfold leadingOk at hl
      rw [if_pos hblank] at hl
      rw [Bool.and_eq_true] at hl
      exact hl.2
    obtain ⟨fin, hfold⟩ := ih s₁ hInv₁ (fun e' he' => hall e' (by simp [he'])) hleadEs
    refine ⟨fin, ?_⟩
    rw [List.foldlM_cons, hstep]
    simp only [Option.bind_eq_bind, Option.some_bind]
    exact hfold

/-- C5 counterexample: a record sequence whose first record has a blank TTL
field and a nonempty probes field makes `traceroute` raise (the model
returns `none`), so parse misses are not always silently absorbed. -/
theorem traceroute_first_blank_ttl_raises :
    pyTraceroute ipId [⟨"", "10.0.0.1", "1.0 ms"⟩] = none := by decide

/-- C5 (amended): once every TTL field is blank or an integer, every probe
token a float, every hop with probes a valid address, and no record carrying
probe tokens precedes the first nonblank TTL, `traceroute` returns a
structured result instead of raising. -/
theorem traceroute_wellformed_returns (ipF : String → Option String)
    (rs : List TraceEntry)
    (h1 : ∀ e ∈ rs, entryParses ipF e = true) (h2 : leadingOk rs = true) :
    ∃ T, pyTraceroute ipF rs = some T := by
  obtain ⟨fin, hfold⟩ := traceTotal ipF rs ⟨none, 1, []⟩
    (fun c hc => by cases hc) h1 (fun _ => h2)
  refine ⟨fin.trace, ?_⟩
  unfold pyTraceroute
  rw [hfold]
  rfl

/-- C5 witness: the amended theorem applied to one concrete well-formed
record, with both hypotheses evaluated. -/
theorem traceroute_wellformed_returns_w :
    ∃ T, pyTraceroute ipId [⟨"1", "10.0.0.1", "1.0 ms"⟩] = some T :=
  traceroute_wellformed_returns ipId [⟨"1", "10.0.0.1", "1.0 ms"⟩]
    (by decide) (by decide)

/-! Lemmas about `natOfDigits` on a run of the digit 1, needed to name the
value the Gbit branch actually produces without evaluating a 1000-digit
number inside the kernel. -/

/-- Shift law of the digit-accumulating fold. -/
lemma natOfDigits_foldl_shift (l : List Char) :
    ∀ a : Nat, l.foldl (fun a c => a * 10 + (c.toNat - 48)) a =
      a * 10 ^ l.length + l.foldl (fun a c => a * 10 + (c.toNat - 48)) 0 := by
  induction l with
  | nil => intro a; simp
  | cons c l ih =>
    intro a
    simp only [List.foldl_cons, List.length_cons]
    rw [ih (a * 10 + (c.toNat - 48)), ih (0 * 10 + (c.toNat - 48))]
    ring

/-- The repunit law: nine times the value of n ones, plus one, is 10 ^ n. -/
lemma natOfDigits_replicate_one : ∀ n : Nat,
    9 * natOfDigits (List.replicate n '1') + 1 = 10 ^ n := by
  intro n
  induction n with
  | zero => rfl
  | succ n ih =>
    rw [List.replicate_succ]
    show 9 * ((List.replicate n '1').foldl _ (0 * 10 + ('1'.toNat - 48))) + 1 = _
    rw [natOfDigits_foldl_shift]
    have h1 : '1'.toNat - 48 = 1 := rfl
    rw [h1, List.length_replicate, pow_succ]
    have : natOfDigits (List.replicate n '1') =
        (List.replicate n '1').foldl (fun a c => a * 10 + (c.toNat - 48)) 0 := rfl
    omega

/-- Flattening n copies of a one-character string gives n copies of the character. -/
lemma pyStrMul_singleton (c : Char) : ∀ n, pyStrMul [c] n = List.replicate n c := by
  intro n
  induction n with
  | zero => rfl
  | succ n ih =>
    simp only [pyStrMul, List.replicate_succ, List.flatten_cons] at ih ⊢
    rw [ih]
    rfl

/-- `dropWhile` is the identity on a run of a character the test rejects. -/
lemma dropWhile_replicate_of_neg (p : Char → Bool) (c : Char) (h : p c = false) :
    ∀ n, List.dropWhile p (List.replicate n c) = List.replicate n c := by
  intro n
  cases n with
  | zero => rfl
  | succ n => rw [List.replicate_succ, List.dropWhile_cons_of_neg (by simp [h])]

/-- Stripping does not change a run of the digit 1. -/
lemma trimL_replicate_one (n : Nat) :
    trimL (List.replicate n '1') = List.replicate n '1' := by
  unfold trimL
  rw [dropWhile_replicate_of_neg isWS '1' rfl, List.reverse_replicate,
    dropWhile_replicate_of_neg isWS '1' rfl, List.reverse_replicate]

/-- A run of the digit 1 is all digits. -/
lemma all_isDigit_replicate_one : ∀ n, (List.replicate n '1').all Char.isDigit = true := by
  intro n
  induction n with
  | zero => rfl
  | succ n ih => rw [List.replicate_succ, List.all_cons, ih]; rfl

/-- `pyIntCore` on a nonempty run of ones returns its repunit value. -/
lemma pyIntCore_replicate_one (n : Nat) :
    pyIntCore (List.replicate (n + 1) '1') =
      some ((natOfDigits (List.replicate (n + 1) '1') : Nat) : Int) := by
  have hall := all_isDigit_replicate_one (n + 1)
  rw [List.replicate_succ] at hall ⊢
  simp only [pyIntCore]
  rw [if_neg (by decide), if_neg (by decide), if_pos hall]

/-! Lemmas for canonicalization idempotence. -/

/-- `startsWithL` holds on any extension of the tested head. -/
lemma startsWithL_append (p : List Char) : ∀ rest, startsWithL p (p ++ rest) = true := by
  induction p with
  | nil => intro rest; rfl
  | cons a l ih => intro rest; simp [startsWithL, ih]

/-- `takeWhile` swallows exactly an initial block on which the test holds
when the first character after it (if any) fails the test. -/
lemma takeWhile_append_block (p : Char → Bool) :
    ∀ l₁ l₂ : List Char, (∀ c ∈ l₁, p c = true) →
      (∀ c, l₂.head? = some c → p c = false) → (l₁ ++ l₂).takeWhile p = l₁ := by
  intro l₁
  induction l₁ with
  | nil =>
    intro l₂ _ h₂
    cases l₂ with
    | nil => rfl
    | cons c cs => simp [List.takeWhile_cons, h₂ c rfl]
  | cons a l ih =>
    intro l₂ h₁ h₂
    rw [List.cons_append, List.takeWhile_cons, if_pos (h₁ a (by simp)),
      ih l₂ (fun c hc => h₁ c (List.mem_cons_of_mem a hc)) h₂]

/-- The head left by `dropWhile` fails the test. -/
lemma head_dropWhile_false (p : Char → Bool) :
    ∀ l : List Char, ∀ c, (l.dropWhile p).head? = some c → p c = false := by
  intro l
  induction l with
  | nil => intro c h; cases h
  | cons a l ih =>
    intro c h
    rw [List.dropWhile_cons] at h
    by_cases hp : p a = true
    · rw [if_pos hp] at h
      exact ih c h
    · rw [if_neg hp] at h
      simp only [List.head?_cons] at h
      injection h with h2
      subst h2
      simpa using hp

/-- A lookup result is the value of some table entry. -/
lemma dictGet_mem_values {α β : Type} [DecidableEq α] (k : α) (v : β) :
    ∀ l : List (α × β), dictGet k l = some v → ∃ kv, kv ∈ l ∧ kv.2 = v := by
  intro l
  induction l with
  | nil => intro h; cases h
  | cons kv r ih =>
    obtain ⟨k', v'⟩ := kv
    intro h
    rw [dictGet] at h
    by_cases he : k' = k
    · rw [if_pos he] at h
      exact ⟨(k', v'), by simp, Option.some.inj h⟩
    · rw [if_neg he] at h
      obtain ⟨kv', hm, hv⟩ := ih h
      exact ⟨kv', by simp [hm], hv⟩

/-- Every value of the abbreviation table is fully alphabetic and is not
itself a key of the table. -/
lemma ifaceAbbrevTable_values_ok :
    ∀ kv ∈ ifaceAbbrevTable, (∀ c ∈ kv.2.data, Char.isAlpha c = true) ∧
      dictGet (String.mk kv.2.data) ifaceAbbrevTable = none := by
  decide

/-- The spec-modelled expansion is idempotent. -/
lemma canonical_interface_name_idem (s : String) :
    canonical_interface_name (canonical_interface_name s) =
      canonical_interface_name s := by
  cases hfind : dictGet (String.mk (s.data.takeWhile Char.isAlpha)) ifaceAbbrevTable with
  | none =>
    have h1 : canonical_interface_name s = s := by
      unfold canonical_interface_name
      rw [hfind]
    rw [h1]
    exact h1
  | some full =>
    obtain ⟨kv, hmem, hval⟩ := dictGet_mem_values _ _ _ hfind
    have hfacts := ifaceAbbrevTable_values_ok kv hmem
    rw [hval] at hfacts
    obtain ⟨halpha, hnokey⟩ := hfacts
    have h1 : canonical_interface_name s =
        String.mk (full.data ++ s.data.dropWhile Char.isAlpha) := by
      unfold canonical_interface_name
      rw [hfind]
    rw [h1]
    have hdata : (String.mk (full.data ++ s.data.dropWhile Char.isAlpha)).data =
        full.data ++ s.data.dropWhile Char.isAlpha := rfl
    unfold canonical_interface_name
    rw [hdata, takeWhile_append_block _ _ _ halpha
      (head_dropWhile_false Char.isAlpha s.data), hnokey]

/-- Expansion fixes any name of the form TenGigabitEthernet, a space, then
anything: the alphabetic head is TenGigabitEthernet, which is not a key. -/
lemma canonical_interface_name_tge_space (nums : List Char) :
    canonical_interface_name (String.mk ("TenGigabitEthernet ".data ++ nums)) =
      String.mk ("TenGigabitEthernet ".data ++ nums) := by
  unfold canonical_interface_name
  have hdata : (String.mk ("TenGigabitEthernet ".data ++ nums)).data =
      "TenGigabitEthernet".data ++ (' ' :: nums) := rfl
  rw [hdata, takeWhile_append_block _ _ _ (by decide)
    (fun c h => by injection h with h2; subst h2; rfl)]
  have hnokey : dictGet (String.mk "TenGigabitEthernet".data) ifaceAbbrevTable = none := by
    decide
  rw [hnokey]

/-- The TenGigabitEthernet fixup never matches a name that already has the
space: the character after the literal is a space, not a digit. -/
lemma tenGigMatch_space (nums : List Char) :
    tenGigMatch (String.mk ("TenGigabitEthernet ".data ++ nums)) = none := by
  unfold tenGigMatch
  have hdata : (String.mk ("TenGigabitEthernet ".data ++ nums)).data =
      "TenGigabitEthernet".data ++ (' ' :: nums) := rfl
  rw [hdata, if_pos (startsWithL_append _ _)]
  have hlen : ("TenGigabitEthernet".data).length = 18 := rfl
  rw [← hlen, List.drop_left]
  unfold tenGigNumMatch
  rw [List.dropWhile_cons, if_neg (by decide)]
  exact if_neg (fun h => absurd h.1 (by decide))

/-- C4: interface name canonicalization is idempotent, and the spaceless
TenGigabitEthernet1/1 is rewritten to TenGigabitEthernet 1/1, which a second
application leaves unchanged. -/
theorem canonicalization_idempotent :
    (∀ s, ftosCanonicalIfaceName (ftosCanonicalIfaceName s) = ftosCanonicalIfaceName s) ∧
    ftosCanonicalIfaceName "TenGigabitEthernet1/1" = "TenGigabitEthernet 1/1" := by
  constructor
  · intro s
    cases htm : tenGigMatch (canonical_interface_name s) with
    | none =>
      have h1 : ftosCanonicalIfaceName s = canonical_interface_name s := by
        unfold ftosCanonicalIfaceName
        rw [htm]
      rw [h1]
      unfold ftosCanonicalIfaceName
      rw [canonical_interface_name_idem s, htm]
    | some nums =>
      have h1 : ftosCanonicalIfaceName s = String.mk ("TenGigabitEthernet ".data ++ nums) := by
        unfold ftosCanonicalIfaceName
        rw [htm]
      rw [h1]
      unfold ftosCanonicalIfaceName
      rw [canonical_interface_name_tge_space nums, tenGigMatch_space nums]
  · decide

/-- C3: the duration parser satisfies the published test vectors: the long
form string of 32 weeks, 6 days, 10 hours and 39 minutes gives
32*604800 + 6*86400 + 10*3600 + 39*60 seconds, the short form 20w4d21h gives
20*604800 + 4*86400 + 21*3600, the short form 01:02:03 gives 3723, and the
empty short form gives 0. -/
theorem uptime_vectors :
    pyParseUptime "32 week(s), 6 day(s), 10 hour(s), 39 minute(s)" false =
      some (32 * 604800 + 6 * 86400 + 10 * 3600 + 39 * 60) ∧
    pyParseUptime "20w4d21h" true = some (20 * 604800 + 4 * 86400 + 21 * 3600) ∧
    pyParseUptime "01:02:03" true = some 3723 ∧
    pyParseUptime "" true = some 0 :=
  ⟨by decide, by decide, by decide, by decide⟩

/-- C6: evaluation at the failing input. The short-form segment regex of
`_parse_uptime` captures only w, d, h and m groups, so the year branch of the
dispatch loop is unreachable: on the short-form input 1y2w the zero-width
match at position 0 wins and the parser returns 0 seconds, not the
1*31536000 + 2*604800 the year rule would give. -/
theorem short_form_year_not_recognized :
    pyParseUptime "1y2w" true = some 0 ∧
    (0 : Int) ≠ 1 * 31536000 + 2 * 604800 :=
  ⟨by decide, by decide⟩

set_option maxRecDepth 8000 in
/-- C1: evaluation of the speed parser. The Mbit branch and the default are
as claimed, but the Gbit branch computes `int(speed[0]*1000)` where
`speed[0]` is a string, so for the line speed 1 Gbit it parses the digit 1
repeated 1000 times -- the repunit (10^1000 - 1)/9 -- instead of 1000. -/
theorem interfaces_speed_gbit_repeats_digits :
    ifaceSpeed "100 Mbit" = some 100 ∧
    ifaceSpeed "auto" = some 0 ∧
    ifaceSpeed "1 Gbit" = some (((10 : Int) ^ 1000 - 1) / 9) ∧
    ((10 : Int) ^ 1000 - 1) / 9 ≠ 1000 := by
  have h9 := natOfDigits_replicate_one 1000
  set R := natOfDigits (List.replicate 1000 '1') with hRdef
  have hcast : ((10 : Int) ^ 1000 - 1) = 9 * (R : Int) := by
    have hc := congrArg (fun n : Nat => (n : Int)) h9
    push_cast at hc
    linarith
  have hdiv : ((10 : Int) ^ 1000 - 1) / 9 = (R : Int) := by
    rw [hcast]
    exact Int.mul_ediv_cancel_left _ (by norm_num)
  refine ⟨by decide, by decide, ?_, ?_⟩
  · have hred : ifaceSpeed "1 Gbit" = pyIntCore (trimL (pyStrMul ['1'] 1000)) := rfl
    rw [hred, pyStrMul_singleton, trimL_replicate_one, hdiv]
    have hval := pyIntCore_replicate_one 999
    norm_num at hval
    exact hval
  · rw [hdiv]
    intro hEq
    have hR : R = 1000 := by exact_mod_cast hEq
    rw [hR] at h9
    have hpow : (10 : Nat) ^ 4 ≤ 10 ^ 1000 := Nat.pow_le_pow_right (by norm_num) (by norm_num)
    have h4 : (10 : Nat) ^ 4 = 10000 := by norm_num
    omega

end NapalmFtos
